import Mathlib

/-!
Verification of the wenet-kws core: the max-pooling loss evaluator
(`kws/model/loss.py`, `max_polling_loss`) and the model composer
(`kws/model/kws_model.py`, `KWSModel` / `init_model`).

Probabilities and loss values are modelled exactly over `ℚ`; the function
`x ↦ -log x` applied by `loss += -torch.log(p)` is kept abstract as a
parameter `nlog : ℚ → ℚ`, since every property of interest is an identity
between the arguments handed to the logarithm.
-/

namespace WenetKWS

/-- `torch.clamp(x, lo, hi)`. -/
def clampQ (x lo hi : ℚ) : ℚ := min (max x lo) hi

/-- The literal `1e-8` used as the clamp floor in `max_polling_loss`. -/
def epsQ : ℚ := 1 / 100000000

/-- Maximum of `f` over indices `0, …, T-1`, the value of `tensor.max()` on a
length-`T` slice.  For `T = 0` (a case `torch` rejects and the theorems
exclude) it defaults to `f 0`. -/
def rangeMax (f : ℕ → ℚ) : ℕ → ℚ
  | 0 => f 0
  | 1 => f 0
  | n + 2 => max (rangeMax f (n + 1)) (f (n + 1))

/-- Minimum of `f` over indices `0, …, T-1`, the value of `tensor.min()` on a
length-`T` slice. -/
def rangeMin (f : ℕ → ℚ) : ℕ → ℚ
  | 0 => f 0
  | 1 => f 0
  | n + 2 => min (rangeMin f (n + 1)) (f (n + 1))

/-- Index reported by `tensor.max(dim)`: the first index attaining the
maximum over `0, …, T-1`. -/
def argMaxIdx (f : ℕ → ℚ) : ℕ → ℕ
  | 0 => 0
  | 1 => 0
  | n + 2 => if rangeMax f (n + 1) < f (n + 1) then n + 1 else argMaxIdx f (n + 1)

/-- Modelled from the spec: the padding mask of `kws/utils/mask.py` (absent
from the sources), as a predicate — `mask[i, t] = true` iff `t >= lengths[i]`,
i.e. frame `t` of utterance `i` is padding.  The pure embedding below uses it
on a tensor whose time dimension equals the mask width `max(lengths)`. -/
def frameMasked (lengths : ℕ → ℕ) (i t : ℕ) : Prop := lengths i ≤ t

instance (lengths : ℕ → ℕ) (i t : ℕ) : Decidable (frameMasked lengths i t) :=
  inferInstanceAs (Decidable (lengths i ≤ t))

/-- Positive branch of `max_polling_loss` (lines 49–57): the column for the
target keyword is masked to `0` on padding frames and on the first
`min_duration` frames, clamped into `[1e-8, 1]`, then max-pooled over the
`T` frames. -/
def posPool (f : ℕ → ℕ → ℕ → ℚ) (lengths : ℕ → ℕ) (md T i j : ℕ) : ℚ :=
  rangeMax (fun t => clampQ (if t < md ∨ frameMasked lengths i t then 0 else f i t j) epsQ 1) T

/-- Negative branch of `max_polling_loss` (lines 58–64): the absence
probability `1 - p` is forced to `1` on padding frames, clamped into
`[1e-8, 1]`, then min-pooled over the `T` frames. -/
def negPool (f : ℕ → ℕ → ℕ → ℚ) (lengths : ℕ → ℕ) (T i j : ℕ) : ℚ :=
  rangeMin (fun t => clampQ (if frameMasked lengths i t then 1 else 1 - f i t j) epsQ 1) T

/-- The loss term accumulated for the pair (utterance `i`, keyword `j`):
`-log` of the pooled probability of the branch selected by `target[i] == j`. -/
def pairLoss (nlog : ℚ → ℚ) (f : ℕ → ℕ → ℕ → ℚ) (target : ℕ → ℤ)
    (lengths : ℕ → ℕ) (md T : ℕ) (i j : ℕ) : ℚ :=
  if target i = (j : ℤ) then nlog (posPool f lengths md T i j)
  else nlog (negPool f lengths T i j)

/-- The accumulated loss of `max_polling_loss`: the double `for` loop over
utterances and keywords summing `pairLoss`, then division by `num_utts`. -/
def lossOf (nlog : ℚ → ℚ) (f : ℕ → ℕ → ℕ → ℚ) (target : ℕ → ℤ)
    (lengths : ℕ → ℕ) (md B T D : ℕ) : ℚ :=
  ((List.range B).foldl
    (fun acc i =>
      (List.range D).foldl (fun a j => a + pairLoss nlog f target lengths md T i j) acc)
    0) / (B : ℚ)

/-- `logits.masked_fill(mask.unsqueeze(-1), 0.0)` in the accuracy pass:
padding frames are zeroed across every keyword column. -/
def maskedPost (f : ℕ → ℕ → ℕ → ℚ) (lengths : ℕ → ℕ) (i t j : ℕ) : ℚ :=
  if frameMasked lengths i t then 0 else f i t j

/-- `logits.max(1)`: per-utterance, per-keyword maximum over time of the
zero-filled posteriors. -/
def timeMax (f : ℕ → ℕ → ℕ → ℚ) (lengths : ℕ → ℕ) (T i j : ℕ) : ℚ :=
  rangeMax (fun t => maskedPost f lengths i t j) T

/-- `max_logits[i].max(0)` value: the overall maximum masked posterior of
utterance `i` across all keyword columns. -/
def utterMax (f : ℕ → ℕ → ℕ → ℚ) (lengths : ℕ → ℕ) (T D i : ℕ) : ℚ :=
  rangeMax (fun j => timeMax f lengths T i j) D

/-- `max_logits[i].max(0)` index: the arg-max keyword column. -/
def utterArg (f : ℕ → ℕ → ℕ → ℚ) (lengths : ℕ → ℕ) (T D i : ℕ) : ℕ :=
  argMaxIdx (fun j => timeMax f lengths T i j) D

/-- The contribution of utterance `i` to `num_correct` (lines 72–79): `1` via
the trigger branch (`max_p > 0.5` and the arg-max column equals the target) or
via the filler branch (`max_p < 0.5` and the target is negative). -/
def correctInd (f : ℕ → ℕ → ℕ → ℚ) (target : ℕ → ℤ) (lengths : ℕ → ℕ)
    (T D i : ℕ) : ℕ :=
  (if 1 / 2 < utterMax f lengths T D i ∧ (utterArg f lengths T D i : ℤ) = target i
    then 1 else 0)
  + (if utterMax f lengths T D i < 1 / 2 ∧ target i < 0 then 1 else 0)

/-- `acc = num_correct / num_utts`: the accuracy pass of `max_polling_loss`. -/
def accOf (f : ℕ → ℕ → ℕ → ℚ) (target : ℕ → ℤ) (lengths : ℕ → ℕ)
    (B T D : ℕ) : ℚ :=
  (((List.range B).foldl (fun n i => n + correctInd f target lengths T D i) 0 : ℕ) : ℚ)
    / (B : ℚ)

/-- `max_polling_loss` under well-formed shapes: the `(loss, acc)` pair. -/
def max_polling_loss (nlog : ℚ → ℚ) (f : ℕ → ℕ → ℕ → ℚ) (target : ℕ → ℤ)
    (lengths : ℕ → ℕ) (md B T D : ℕ) : ℚ × ℚ :=
  (lossOf nlog f target lengths md B T D, accOf f target lengths B T D)

/-! ### Model composition (`kws/model/kws_model.py`) -/

/-- Already-parsed CMVN statistics (`load_cmvn` reads them from a file; the
spec treats the loader as an external collaborator supplying these arrays). -/
structure CmvnStats where
  mean : List ℚ
  istd : List ℚ
  norm_var : Bool
deriving DecidableEq

/-- The `preprocessing` section of the configuration mapping. -/
structure PrepConfig where
  type : String
deriving DecidableEq

/-- The `backbone` section of the configuration mapping.  Each hyperparameter
key may be absent (`none`), as in a Python dict; note that the dict may carry
both a `drouput` and a `dropout` key. -/
structure BackboneConfig where
  type : String
  num_layers : Option ℕ := none
  ds : Option Bool := none
  kernel_size : Option ℕ := none
  drouput : Option ℚ := none
  dropout : Option ℚ := none
  stack_size : Option ℕ := none
  num_stack : Option ℕ := none
  hidden_dim : Option ℕ := none
deriving DecidableEq

/-- The configuration mapping consumed by `init_model`. -/
structure Config where
  cmvn : Option CmvnStats := none
  input_dim : ℕ
  output_dim : ℕ
  hidden_dim : ℕ
  preprocessing : PrepConfig
  backbone : BackboneConfig
deriving DecidableEq

/-- Descriptor of the constructed preprocessing stage. -/
inductive Preprocessing where
  | linearSub (idim hdim : ℕ)
  | conv1dSub (idim hdim : ℕ)
deriving DecidableEq

/-- Descriptor of the constructed backbone, recording exactly the arguments
its constructor receives in `init_model`. -/
inductive Backbone where
  | gru (input hidden num_layers : ℕ)
  | tcn (num_layers channels kernel_size : ℕ) (dropout : ℚ) (ds : Bool)
  | mdtc (num_stack stack_size in_dim res_channels kernel_size : ℕ) (causal : Bool)
deriving DecidableEq

/-- The assembled `KWSModel`: its four parts, with the classifier determined
by `torch.nn.Linear(hdim, odim)`. -/
structure KWSModelD where
  idim : ℕ
  odim : ℕ
  hdim : ℕ
  global_cmvn : Option CmvnStats
  preprocessing : Option Preprocessing
  backbone : Backbone
deriving DecidableEq

/-- Input dimension of the classifier head `torch.nn.Linear(hdim, odim)`. -/
def KWSModelD.classifierIn (m : KWSModelD) : ℕ := m.hdim

/-- Output dimension of the classifier head. -/
def KWSModelD.classifierOut (m : KWSModelD) : ℕ := m.odim

/-- Failures of `init_model`: the `print(...)` + `sys.exit(1)` on an unknown
preprocessing or backbone type (the exit message carries the offending
value), and a Python `KeyError` for a missing required hyperparameter. -/
inductive InitError where
  | unknownPrep (v : String)
  | unknownBackbone (v : String)
  | missingKey (k : String)
deriving DecidableEq

/-- `configs[section][key]`: a required dict lookup, raising `KeyError` when
the key is absent. -/
def requiredKey (v : Option α) (k : String) : Except InitError α :=
  match v with
  | some a => Except.ok a
  | none => Except.error (InitError.missingKey k)

/-- `init_model` of `kws/model/kws_model.py`, lines 63–127.  Fatal
`sys.exit(1)` paths and `KeyError`s are the `Except.error` outcomes. -/
def init_model (c : Config) : Except InitError KWSModelD := do
  let global_cmvn := c.cmvn
  let input_dim := c.input_dim
  let output_dim := c.output_dim
  let hidden_dim := c.hidden_dim
  let prep_type := c.preprocessing.type
  let preprocessing ←
    if prep_type = "linear" then
      Except.ok (some (Preprocessing.linearSub input_dim hidden_dim))
    else if prep_type = "cnn1d_s1" then
      Except.ok (some (Preprocessing.conv1dSub input_dim hidden_dim))
    else if prep_type = "none" then
      Except.ok none
    else
      Except.error (InitError.unknownPrep prep_type)
  let backbone_type := c.backbone.type
  let (backbone, hidden_dim) ←
    if backbone_type = "gru" then do
      let num_layers ← requiredKey c.backbone.num_layers "num_layers"
      Except.ok (Backbone.gru hidden_dim hidden_dim num_layers, hidden_dim)
    else if backbone_type = "tcn" then do
      let num_layers ← requiredKey c.backbone.num_layers "num_layers"
      let _ds := c.backbone.ds.getD false
      let kernel_size := c.backbone.kernel_size.getD 8
      let dropout := c.backbone.drouput.getD (1 / 10)
      Except.ok (Backbone.tcn num_layers hidden_dim kernel_size dropout _ds, hidden_dim)
    else if backbone_type = "mdtc" then do
      let stack_size ← requiredKey c.backbone.stack_size "stack_size"
      let num_stack ← requiredKey c.backbone.num_stack "num_stack"
      let kernel_size ← requiredKey c.backbone.kernel_size "kernel_size"
      let hidden_dim ← requiredKey c.backbone.hidden_dim "hidden_dim"
      Except.ok (Backbone.mdtc num_stack stack_size input_dim hidden_dim kernel_size true,
        hidden_dim)
    else
      Except.error (InitError.unknownBackbone backbone_type)
  Except.ok { idim := input_dim, odim := output_dim, hdim := hidden_dim,
              global_cmvn := global_cmvn, preprocessing := preprocessing,
              backbone := backbone }

/-! ### The composed pipeline's forward pass (`KWSModel.forward`)

The concrete stage modules (`GlobalCMVN`, the subsampling projections, the
GRU/TCN/MDTC backbones) live in files absent from the sources; the spec
treats them as sequence transforms.  They are therefore opaque function
parameters here, while the classifier head and the final sigmoid — the parts
written in `kws_model.py` itself — are concrete. -/

/-- A (batch, time, channels) tensor of reals. -/
abbrev Tensor3R := List (List (List ℝ))

/-- Dot product of a weight row with a frame vector. -/
def dotR (w v : List ℝ) : ℝ := ((w.zip v).map (fun p => p.1 * p.2)).sum

/-- `torch.nn.Linear` applied to one frame: one output per weight row. -/
def linearFrame (W : List (List ℝ)) (b : List ℝ) (v : List ℝ) : List ℝ :=
  (W.zip b).map (fun p => dotR p.1 v + p.2)

/-- `torch.sigmoid`. -/
noncomputable def sigmoid (x : ℝ) : ℝ := 1 / (1 + Real.exp (-x))

/-- The composed pipeline: optional normalization and projection stages, the
backbone (returning its output and an auxiliary value, as
`x, _ = self.backbone(x)` destructures), and the classifier parameters. -/
structure KWSForward where
  global_cmvn : Option (Tensor3R → Tensor3R)
  preprocessing : Option (Tensor3R → Tensor3R)
  backbone : Tensor3R → Tensor3R × Option Tensor3R
  classifierW : List (List ℝ)
  classifierB : List ℝ

/-- An optional stage: apply it when present, identity when absent. -/
def applyStage (s : Option (Tensor3R → Tensor3R)) (x : Tensor3R) : Tensor3R :=
  match s with
  | some g => g x
  | none => x

/-- `self.classifier(x)`: the linear head applied per frame. -/
def classify (m : KWSForward) (x : Tensor3R) : Tensor3R :=
  x.map (fun mat => mat.map (fun v => linearFrame m.classifierW m.classifierB v))

/-- `torch.sigmoid(x)` element-wise on a 3-D tensor. -/
noncomputable def sigmoid3 (x : Tensor3R) : Tensor3R :=
  x.map (fun mat => mat.map (fun v => v.map sigmoid))

/-- `KWSModel.forward`, lines 52–60: normalization when present, projection
when present, backbone, classifier, sigmoid. -/
noncomputable def KWSModel_forward (m : KWSForward) (x0 : Tensor3R) : Tensor3R :=
  let x1 := match m.global_cmvn with | some g => g x0 | none => x0
  let x2 := match m.preprocessing with | some p => p x1 | none => x1
  let x3 := (m.backbone x2).1
  let x4 := classify m x3
  sigmoid3 x4

/-- Entry `X[i, t, k]` of a real tensor, defaulting to `0` out of range. -/
def entryR (X : Tensor3R) (i t k : ℕ) : ℝ := ((X.getD i []).getD t []).getD k 0

/-! ### Shape-checked evaluator over list tensors

`max_polling_loss` performs no explicit shape validation; exceptions arise
from the individual tensor operations (indexing, `masked_fill` broadcasting,
empty reductions, the final division).  This evaluator mirrors the source
operation by operation with those failure conditions made explicit. -/

/-- The run-time failures the tensor operations of `max_polling_loss` can
raise: an empty reduction (`tensor.max()`/`.min()` on zero elements), an
index out of range, a `masked_fill` broadcast mismatch, and the
`ZeroDivisionError` of `loss / num_utts` on an empty batch. -/
inductive EvalError where
  | emptyReduce
  | indexOut
  | broadcast
  | divZero
deriving DecidableEq

/-- `tensor[i]` on the leading dimension. -/
def getE (l : List α) (i : ℕ) : Except EvalError α :=
  match l[i]? with
  | some a => Except.ok a
  | none => Except.error EvalError.indexOut

/-- Effectful map in the `Except` monad (structural recursion). -/
def mapME (f : α → Except EvalError β) : List α → Except EvalError (List β)
  | [] => Except.ok []
  | a :: l => do
    let b ← f a
    let bs ← mapME f l
    Except.ok (b :: bs)

/-- Effectful left fold in the `Except` monad (structural recursion). -/
def foldlME (g : β → α → Except EvalError β) : β → List α → Except EvalError β
  | b, [] => Except.ok b
  | b, a :: l => do
    let b2 ← g b a
    foldlME g b2 l

/-- `logits[i, :, j]`: entry `j` of every time row. -/
def columnE (mat : List (List ℚ)) (j : ℕ) : Except EvalError (List ℚ) :=
  mapME (fun row => getE row j) mat

/-- `xs.masked_fill(m, v)` on 1-D tensors: the mask must have the same
length, or length 1 (broadcast). -/
def maskedFillE (xs : List ℚ) (m : List Bool) (v : ℚ) : Except EvalError (List ℚ) :=
  if m.length = xs.length then
    Except.ok ((xs.zip m).map (fun p => if p.2 then v else p.1))
  else if m.length = 1 then
    Except.ok (if m.getD 0 false then xs.map (fun _ => v) else xs)
  else Except.error EvalError.broadcast

/-- `tensor.max()`: fails on an empty tensor. -/
def maxE (l : List ℚ) : Except EvalError ℚ :=
  match l with
  | [] => Except.error EvalError.emptyReduce
  | x :: xs => Except.ok (xs.foldl max x)

/-- `tensor.min()`: fails on an empty tensor. -/
def minE (l : List ℚ) : Except EvalError ℚ :=
  match l with
  | [] => Except.error EvalError.emptyReduce
  | x :: xs => Except.ok (xs.foldl min x)

/-- `m[:min_duration] = True`. -/
def setTrueBefore (m : List Bool) (md : ℕ) : List Bool :=
  m.enum.map (fun p => if p.1 < md then true else p.2)

/-- Modelled from the spec: `padding_mask` of `kws/utils/mask.py` (absent
from the sources) — a (batch, max(lengths)) boolean array with
`mask[i][t] = (t >= lengths[i])`; the underlying `lengths.max()` fails on an
empty batch. -/
def padding_maskE (lengths : List ℕ) : Except EvalError (List (List Bool)) :=
  match lengths with
  | [] => Except.error EvalError.emptyReduce
  | _ =>
    Except.ok (lengths.map
      (fun len => (List.range (lengths.foldr Nat.max 0)).map (fun t => decide (len ≤ t))))

/-- The body of the double loss loop for the pair `(i, j)` (lines 48–64). -/
def lossTermE (nlog : ℚ → ℚ) (logits : List (List (List ℚ)))
    (mask : List (List Bool)) (target : List ℤ) (md i j : ℕ) :
    Except EvalError ℚ := do
  let ti ← getE target i
  if ti = (j : ℤ) then do
    let mat ← getE logits i
    let prob ← columnE mat j
    let mi ← getE mask i
    let m := setTrueBefore mi md
    let filled ← maskedFillE prob m 0
    let clamped := filled.map (fun x => clampQ x epsQ 1)
    let mp ← maxE clamped
    Except.ok (nlog mp)
  else do
    let mat ← getE logits i
    let col ← columnE mat j
    let prob := col.map (fun x => 1 - x)
    let mi ← getE mask i
    let filled ← maskedFillE prob mi 1
    let clamped := filled.map (fun x => clampQ x epsQ 1)
    let mp ← minE clamped
    Except.ok (nlog mp)

/-- `masked_fill` of a (time, keywords) slice with a broadcast time mask:
the trailing `unsqueeze(-1)` dimension of size 1 broadcasts over keywords,
so a masked time row is zeroed whole. -/
def fill2E (mat : List (List ℚ)) (mrow : List Bool) :
    Except EvalError (List (List ℚ)) :=
  if mrow.length = mat.length then
    Except.ok ((mat.zip mrow).map
      (fun p => if p.2 then p.1.map (fun _ => (0 : ℚ)) else p.1))
  else if mrow.length = 1 then
    Except.ok (if mrow.getD 0 false then mat.map (fun row => row.map (fun _ => (0 : ℚ)))
      else mat)
  else Except.error EvalError.broadcast

/-- `logits.masked_fill(mask.unsqueeze(-1), 0.0)` (line 69). -/
def maskedFill3E (logits : List (List (List ℚ))) (mask : List (List Bool)) :
    Except EvalError (List (List (List ℚ))) :=
  if mask.length = logits.length then
    mapME (fun p => fill2E p.1 p.2) (logits.zip mask)
  else if mask.length = 1 then
    mapME (fun mat => fill2E mat (mask.getD 0 [])) logits
  else Except.error EvalError.broadcast

/-- `logits.max(1)` for one utterance: the element-wise maximum of its time
rows; fails when the time dimension is empty. -/
def maxOverTimeE (mat : List (List ℚ)) : Except EvalError (List ℚ) :=
  match mat with
  | [] => Except.error EvalError.emptyReduce
  | r :: rs => Except.ok (rs.foldl (fun acc row => acc.zipWith max row) r)

/-- `tensor.max(0)` on a 1-D tensor: the maximal value with the first index
attaining it; fails on an empty tensor. -/
def maxIdxE (l : List ℚ) : Except EvalError (ℚ × ℕ) :=
  match l with
  | [] => Except.error EvalError.emptyReduce
  | x :: xs =>
    Except.ok (xs.enum.foldl
      (fun best p => if best.1 < p.2 then (p.2, p.1 + 1) else best) (x, 0))

/-- `max_polling_loss` of `kws/model/loss.py`, with every tensor operation
shape-checked as `torch` would: the `Except.error` outcomes are exactly the
run-time exceptions the Python code can raise. -/
def max_polling_lossE (nlog : ℚ → ℚ) (logits : List (List (List ℚ)))
    (target : List ℤ) (lengths : List ℕ) (md : ℕ) :
    Except EvalError (ℚ × ℚ) := do
  let mask ← padding_maskE lengths
  let num_utts := logits.length
  let num_keywords := ((logits.headD []).headD []).length
  let lsum ← foldlME
    (fun acc i => foldlME
      (fun a j => do
        let t ← lossTermE nlog logits mask target md i j
        Except.ok (a + t)) acc (List.range num_keywords))
    (0 : ℚ) (List.range num_utts)
  if num_utts = 0 then Except.error EvalError.divZero else do
  let loss := lsum / (num_utts : ℚ)
  let filled ← maskedFill3E logits mask
  let maxl ← mapME maxOverTimeE filled
  let ncorrect ← foldlME
    (fun acc i => do
      let row ← getE maxl i
      let mi ← maxIdxE row
      let ti ← getE target i
      let acc1 := if 1 / 2 < mi.1 ∧ (mi.2 : ℤ) = ti then acc + 1 else acc
      let acc2 := if mi.1 < 1 / 2 ∧ ti < 0 then acc1 + 1 else acc1
      Except.ok acc2)
    (0 : ℕ) (List.range num_utts)
  Except.ok (loss, (ncorrect : ℚ) / (num_utts : ℚ))

/-- Well-formed shapes for `max_polling_lossE`: a non-empty rectangular
(batch, time, keywords) tensor with at least one keyword column, matching
batch dimensions, valid lengths `1 ≤ len ≤ time`, and a time dimension equal
to the longest utterance (features are right-padded to the batch maximum). -/
@[reducible] def WFShapes (logits : List (List (List ℚ))) (target : List ℤ)
    (lengths : List ℕ) : Prop :=
  1 ≤ logits.length ∧
  1 ≤ ((logits.headD []).headD []).length ∧
  target.length = logits.length ∧
  lengths.length = logits.length ∧
  (∀ mat ∈ logits, mat.length = (logits.headD []).length ∧
    ∀ row ∈ mat, row.length = ((logits.headD []).headD []).length) ∧
  (∀ len ∈ lengths, 1 ≤ len ∧ len ≤ (logits.headD []).length) ∧
  lengths.foldr Nat.max 0 = (logits.headD []).length

/-- View of a list tensor as an index function (0 out of range), linking the
checked evaluator's inputs to the pure embedding. -/
def idx3 (L : List (List (List ℚ))) : ℕ → ℕ → ℕ → ℚ :=
  fun i t j => ((L.getD i []).getD t []).getD j 0

/-- View of a length list as an index function. -/
def lenFn (l : List ℕ) : ℕ → ℕ := fun i => l.getD i 0

/-- View of a target list as an index function. -/
def tgtFn (l : List ℤ) : ℕ → ℤ := fun i => l.getD i 0

/-- Whether a checked evaluation completed without raising. -/
def isOkE (x : Except EvalError (ℚ × ℚ)) : Bool :=
  match x with
  | Except.ok _ => true
  | Except.error _ => false

/-! ### Concrete instances used by the witnesses -/

/-- A concrete stand-in for `x ↦ -log x`. -/
def negQ : ℚ → ℚ := fun x => -x

/-- A constant posterior tensor with every entry `1/2`. -/
def halfPost : ℕ → ℕ → ℕ → ℚ := fun _ _ _ => 1 / 2

/-- A posterior tensor whose only nonzero entry is `9/10` at frame 0 of
keyword column 0. -/
def spikePost : ℕ → ℕ → ℕ → ℚ := fun _ t j => if t = 0 ∧ j = 0 then 9 / 10 else 0

/-- Unit lengths: every utterance has one valid frame. -/
def oneLen : ℕ → ℕ := fun _ => 1

/-- Every utterance labelled with keyword 0. -/
def zeroTgt : ℕ → ℤ := fun _ => 0

/-- Every utterance a filler. -/
def fillerTgt : ℕ → ℤ := fun _ => -1

/-- A configuration with an unrecognized preprocessing type. -/
def badPrepConfig : Config :=
  { input_dim := 4, output_dim := 2, hidden_dim := 8,
    preprocessing := { type := "foo" },
    backbone := { type := "gru", num_layers := some 2 } }

/-- A concrete `mdtc` configuration. -/
def mdtcConfig : Config :=
  { input_dim := 80, output_dim := 2, hidden_dim := 64,
    preprocessing := { type := "none" },
    backbone := { type := "mdtc", stack_size := some 4, num_stack := some 3,
                  kernel_size := some 5, hidden_dim := some 32 } }

/-- A concrete `tcn` configuration that supplies only the correctly spelled
`dropout` key, not the `drouput` key the code reads. -/
def tcnConfig : Config :=
  { input_dim := 40, output_dim := 3, hidden_dim := 16,
    preprocessing := { type := "linear" },
    backbone := { type := "tcn", num_layers := some 4, dropout := some (1 / 5) } }

/-! ## Basic lemmas about the pooling operators -/

theorem rangeMax_step (f : ℕ → ℚ) (n : ℕ) (h : 1 ≤ n) :
    rangeMax f (n + 1) = max (rangeMax f n) (f n) := by
  match n, h with
  | m + 1, _ => rfl

theorem le_rangeMax (f : ℕ → ℚ) {T t : ℕ} (ht : t < T) : f t ≤ rangeMax f T := by
  induction T with
  | zero => omega
  | succ n ih =>
    rcases Nat.eq_zero_or_pos n with hn | hn
    · subst hn
      interval_cases t
      exact le_rfl
    · rw [rangeMax_step f n hn]
      rcases Nat.lt_succ_iff_lt_or_eq.mp ht with h | h
      · exact (ih h).trans (le_max_left _ _)
      · subst h
        exact le_max_right _ _

theorem rangeMax_le (f : ℕ → ℚ) {T : ℕ} {c : ℚ} (hT : 0 < T)
    (h : ∀ t < T, f t ≤ c) : rangeMax f T ≤ c := by
  induction T with
  | zero => omega
  | succ n ih =>
    rcases Nat.eq_zero_or_pos n with hn | hn
    · subst hn
      exact h 0 (by omega)
    · rw [rangeMax_step f n hn]
      exact max_le (ih hn (fun t ht => h t (by omega))) (h n (by omega))

theorem rangeMax_attained (f : ℕ → ℚ) {T : ℕ} (hT : 0 < T) :
    ∃ t, t < T ∧ rangeMax f T = f t := by
  induction T with
  | zero => omega
  | succ n ih =>
    rcases Nat.eq_zero_or_pos n with hn | hn
    · subst hn
      exact ⟨0, by omega, rfl⟩
    · obtain ⟨t, ht, hEq⟩ := ih hn
      rw [rangeMax_step f n hn]
      rcases le_total (rangeMax f n) (f n) with h | h
      · exact ⟨n, by omega, max_eq_right h⟩
      · exact ⟨t, by omega, by rw [max_eq_left h, hEq]⟩

theorem rangeMin_step (f : ℕ → ℚ) (n : ℕ) (h : 1 ≤ n) :
    rangeMin f (n + 1) = min (rangeMin f n) (f n) := by
  match n, h with
  | m + 1, _ => rfl

theorem rangeMin_le (f : ℕ → ℚ) {T t : ℕ} (ht : t < T) : rangeMin f T ≤ f t := by
  induction T with
  | zero => omega
  | succ n ih =>
    rcases Nat.eq_zero_or_pos n with hn | hn
    · subst hn
      interval_cases t
      exact le_rfl
    · rw [rangeMin_step f n hn]
      rcases Nat.lt_succ_iff_lt_or_eq.mp ht with h | h
      · exact (min_le_left _ _).trans (ih h)
      · subst h
        exact min_le_right _ _

theorem le_rangeMin (f : ℕ → ℚ) {T : ℕ} {c : ℚ} (hT : 0 < T)
    (h : ∀ t < T, c ≤ f t) : c ≤ rangeMin f T := by
  induction T with
  | zero => omega
  | succ n ih =>
    rcases Nat.eq_zero_or_pos n with hn | hn
    · subst hn
      exact h 0 (by omega)
    · rw [rangeMin_step f n hn]
      exact le_min (ih hn (fun t ht => h t (by omega))) (h n (by omega))

theorem rangeMin_attained (f : ℕ → ℚ) {T : ℕ} (hT : 0 < T) :
    ∃ t, t < T ∧ rangeMin f T = f t := by
  induction T with
  | zero => omega
  | succ n ih =>
    rcases Nat.eq_zero_or_pos n with hn | hn
    · subst hn
      exact ⟨0, by omega, rfl⟩
    · obtain ⟨t, ht, hEq⟩ := ih hn
      rw [rangeMin_step f n hn]
      rcases le_total (rangeMin f n) (f n) with h | h
      · exact ⟨t, by omega, by rw [min_eq_left h, hEq]⟩
      · exact ⟨n, by omega, min_eq_right h⟩

theorem rangeMax_const {T : ℕ} (f : ℕ → ℚ) (c : ℚ) (hT : 0 < T)
    (h : ∀ t < T, f t = c) : rangeMax f T = c := by
  obtain ⟨t, ht, hEq⟩ := rangeMax_attained f hT
  rw [hEq, h t ht]

theorem clampQ_mono {x y : ℚ} (lo hi : ℚ) (h : x ≤ y) :
    clampQ x lo hi ≤ clampQ y lo hi :=
  min_le_min (max_le_max h le_rfl) le_rfl

theorem le_clampQ (x : ℚ) {lo hi : ℚ} (h : lo ≤ hi) : lo ≤ clampQ x lo hi :=
  le_min (le_max_right x lo) h

theorem clampQ_le (x lo hi : ℚ) : clampQ x lo hi ≤ hi := min_le_right _ _

theorem epsQ_le_one : epsQ ≤ 1 := by norm_num [epsQ]

theorem clampQ_zero : clampQ 0 epsQ 1 = epsQ := by
  rw [clampQ, max_eq_right (by norm_num [epsQ]), min_eq_left epsQ_le_one]

theorem clampQ_one : clampQ 1 epsQ 1 = 1 := by
  rw [clampQ, max_eq_left epsQ_le_one, min_self]

/-! ## The pooled values of the two loss branches -/

theorem posPool_eq_clamped_valid_max (f : ℕ → ℕ → ℕ → ℚ) (lengths : ℕ → ℕ)
    (md T i j : ℕ) (hTlen : lengths i ≤ T) (hmd : md < lengths i) :
    posPool f lengths md T i j
      = clampQ (rangeMax (fun k => f i (md + k) j) (lengths i - md)) epsQ 1 := by
  have hT : 0 < T := by omega
  have hL : 0 < lengths i - md := by omega
  unfold posPool frameMasked
  apply le_antisymm
  · apply rangeMax_le _ hT
    intro t ht
    by_cases hexc : t < md ∨ lengths i ≤ t
    · rw [if_pos hexc, clampQ_zero]
      exact le_clampQ _ epsQ_le_one
    · push_neg at hexc
      rw [if_neg (by omega)]
      have hk : t - md < lengths i - md := by omega
      have : f i t j = f i (md + (t - md)) j := by
        congr 1
        omega
      rw [this]
      exact clampQ_mono epsQ 1 (le_rangeMax _ hk)
  · obtain ⟨k, hk, hEq⟩ := rangeMax_attained (fun k => f i (md + k) j) hL
    rw [hEq]
    have ht : md + k < T := by omega
    have := le_rangeMax
      (fun t => clampQ (if t < md ∨ lengths i ≤ t then 0 else f i t j) epsQ 1) ht
    dsimp only at this
    rw [if_neg (by omega)] at this
    exact this

theorem posPool_all_excluded (f : ℕ → ℕ → ℕ → ℚ) (lengths : ℕ → ℕ)
    (md T i j : ℕ) (hT : 0 < T) (hmd : lengths i ≤ md) :
    posPool f lengths md T i j = epsQ := by
  unfold posPool frameMasked
  apply rangeMax_const _ _ hT
  intro t ht
  rw [if_pos (by omega), clampQ_zero]

theorem negPool_eq_clamped_absence (f : ℕ → ℕ → ℕ → ℚ) (lengths : ℕ → ℕ)
    (T i j : ℕ) (h1 : 1 ≤ lengths i) (hTlen : lengths i ≤ T) :
    negPool f lengths T i j
      = clampQ (1 - rangeMax (fun t => f i t j) (lengths i)) epsQ 1 := by
  have hT : 0 < T := by omega
  have hL : 0 < lengths i := by omega
  unfold negPool frameMasked
  apply le_antisymm
  · obtain ⟨t0, ht0, hEq⟩ := rangeMax_attained (fun t => f i t j) hL
    rw [hEq]
    have := rangeMin_le
      (fun t => clampQ (if lengths i ≤ t then 1 else 1 - f i t j) epsQ 1)
      (show t0 < T by omega)
    dsimp only at this
    rw [if_neg (by omega)] at this
    exact this
  · apply le_rangeMin _ hT
    intro t ht
    by_cases hpad : lengths i ≤ t
    · rw [if_pos hpad, clampQ_one]
      exact clampQ_le _ _ _
    · rw [if_neg hpad]
      have : f i t j ≤ rangeMax (fun t => f i t j) (lengths i) :=
        le_rangeMax _ (by omega)
      exact clampQ_mono epsQ 1 (by linarith)

/-! ## Folded accumulation equals the indexed sum -/

theorem foldl_add_eq_sum {M : Type*} [AddCommMonoid M] (g : ℕ → M) (a : M) (n : ℕ) :
    (List.range n).foldl (fun acc k => acc + g k) a
      = a + ∑ k in Finset.range n, g k := by
  induction n with
  | zero => simp
  | succ m ih =>
    rw [List.range_succ, List.foldl_append, ih]
    simp only [List.foldl_cons, List.foldl_nil]
    rw [Finset.sum_range_succ, add_assoc]

theorem double_foldl_add_eq_sum (g : ℕ → ℕ → ℚ) (B D : ℕ) :
    (List.range B).foldl
      (fun acc i => (List.range D).foldl (fun a j => a + g i j) acc) 0
      = ∑ i in Finset.range B, ∑ j in Finset.range D, g i j := by
  induction B with
  | zero => simp
  | succ m ih =>
    rw [List.range_succ, List.foldl_append]
    simp only [List.foldl_cons, List.foldl_nil]
    rw [ih, foldl_add_eq_sum, Finset.sum_range_succ]

/-! ## The claims about the loss branches and reductions -/

/-- Claim C1: for a positive pair (`target[i] == j`), with posteriors in
`[0, 1]` and at least one frame that is neither padding nor excluded by
`min_duration`, the loss contribution is `-log` of the clamped maximum
posterior over the non-excluded valid frames `md ≤ t < lengths[i]`; in
particular, when exactly one such frame exists, with posterior `p`, the
contribution is `-log(clamp(p, 1e-8, 1))`. -/
theorem claim_C1 (nlog : ℚ → ℚ) (f : ℕ → ℕ → ℕ → ℚ) (target : ℕ → ℤ)
    (lengths : ℕ → ℕ) (md T i j : ℕ)
    (_hrange : ∀ t < T, 0 ≤ f i t j ∧ f i t j ≤ 1)
    (htgt : target i = (j : ℤ)) (hTlen : lengths i ≤ T) (hmd : md < lengths i) :
    pairLoss nlog f target lengths md T i j
      = nlog (clampQ (rangeMax (fun k => f i (md + k) j) (lengths i - md)) epsQ 1)
    ∧ (lengths i = md + 1 →
        pairLoss nlog f target lengths md T i j
          = nlog (clampQ (f i md j) epsQ 1)) := by
  have h1 : pairLoss nlog f target lengths md T i j
      = nlog (posPool f lengths md T i j) := by
    rw [pairLoss, if_pos htgt]
  refine ⟨?_, ?_⟩
  · rw [h1, posPool_eq_clamped_valid_max f lengths md T i j hTlen hmd]
  · intro hone
    rw [h1, posPool_eq_clamped_valid_max f lengths md T i j hTlen hmd, hone]
    have h2 : md + 1 - md = 1 := by omega
    rw [h2]
    show nlog (clampQ (f i (md + 0) j) epsQ 1) = nlog (clampQ (f i md j) epsQ 1)
    rw [Nat.add_zero]

theorem claim_C1_witness :
    pairLoss negQ spikePost zeroTgt oneLen 0 1 0 0
      = negQ (clampQ (spikePost 0 0 0) epsQ 1) :=
  (claim_C1 negQ spikePost zeroTgt oneLen 0 1 0 0
    (by intro t ht; interval_cases t; norm_num [spikePost]) rfl
    (by decide) (by decide)).2 (by decide)

/-- Claim C2: for a negative pair (`target[i] != j`, including fillers), with
posteriors in `[0, 1]` and `lengths[i] >= 1`, the loss contribution is
`-log(clamp(1 - max over valid frames of the posterior, 1e-8, 1))` — the
min-pooled absence probability equals one minus the max-pooled posterior. -/
theorem claim_C2 (nlog : ℚ → ℚ) (f : ℕ → ℕ → ℕ → ℚ) (target : ℕ → ℤ)
    (lengths : ℕ → ℕ) (md T i j : ℕ)
    (_hrange : ∀ t < T, 0 ≤ f i t j ∧ f i t j ≤ 1)
    (htgt : target i ≠ (j : ℤ)) (h1 : 1 ≤ lengths i) (hTlen : lengths i ≤ T) :
    pairLoss nlog f target lengths md T i j
      = nlog (clampQ (1 - rangeMax (fun t => f i t j) (lengths i)) epsQ 1) := by
  rw [pairLoss, if_neg htgt,
    negPool_eq_clamped_absence f lengths T i j h1 hTlen]

theorem claim_C2_witness :
    pairLoss negQ halfPost fillerTgt oneLen 0 1 0 0
      = negQ (clampQ (1 - rangeMax (fun t => halfPost 0 t 0) (oneLen 0)) epsQ 1) :=
  claim_C2 negQ halfPost fillerTgt oneLen 0 1 0 0
    (by intro t ht; interval_cases t; norm_num [halfPost]) (by decide)
    (by decide) (by decide)

/-- Claim C4: the returned loss is the sum of all per-utterance, per-keyword
contributions divided by the batch size `B` alone — a mean over utterances
and a plain sum over keyword columns, never divided by `D`. -/
theorem claim_C4 (nlog : ℚ → ℚ) (f : ℕ → ℕ → ℕ → ℚ) (target : ℕ → ℤ)
    (lengths : ℕ → ℕ) (md B T D : ℕ) :
    (max_polling_loss nlog f target lengths md B T D).1
      = (∑ i in Finset.range B, ∑ j in Finset.range D,
          pairLoss nlog f target lengths md T i j) / (B : ℚ) := by
  unfold max_polling_loss lossOf
  rw [double_foldl_add_eq_sum]

/-- Claim C7: an utterance whose overall maximum masked posterior is exactly
`0.5` satisfies neither the trigger branch (strict `> 0.5`) nor the filler
branch (strict `< 0.5`) and is counted incorrect regardless of its target;
the accuracy is the correct count divided by the batch size. -/
theorem claim_C7 (f : ℕ → ℕ → ℕ → ℚ) (target : ℕ → ℤ) (lengths : ℕ → ℕ)
    (B T D i : ℕ) :
    (utterMax f lengths T D i = 1 / 2 → correctInd f target lengths T D i = 0)
    ∧ accOf f target lengths B T D
        = ((∑ k in Finset.range B, correctInd f target lengths T D k : ℕ) : ℚ)
            / (B : ℚ) := by
  constructor
  · intro h
    unfold correctInd
    rw [h]
    norm_num
  · unfold accOf
    rw [foldl_add_eq_sum]
    norm_num

theorem claim_C7_witness :
    correctInd halfPost zeroTgt oneLen 1 1 0 = 0
    ∧ accOf halfPost zeroTgt oneLen 1 1 1
        = ((∑ k in Finset.range 1, correctInd halfPost zeroTgt oneLen 1 1 k : ℕ) : ℚ)
            / ((1 : ℕ) : ℚ) :=
  ⟨(claim_C7 halfPost zeroTgt oneLen 1 1 1 0).1
      (by norm_num [utterMax, timeMax, rangeMax, maskedPost, frameMasked,
        halfPost, oneLen]),
   (claim_C7 halfPost zeroTgt oneLen 1 1 1 0).2⟩

/-! ## The claims about model composition -/

theorem ok_bind {ε α β : Type} (a : α) (f : α → Except ε β) :
    (Except.ok a >>= f : Except ε β) = f a := rfl

theorem error_bind {ε α β : Type} (e : ε) (f : α → Except ε β) :
    (Except.error e >>= f : Except ε β) = Except.error e := rfl

theorem map_ok {ε α β : Type} (f : α → β) (a : α) :
    (Except.ok a : Except ε α).map f = Except.ok (f a) := rfl

/-- Claim C3: a configuration whose preprocessing type is not one of
`none, linear, cnn1d_s1`, or whose backbone type is not one of
`gru, tcn, mdtc`, makes composition fail with an error naming the offending
value (the fatal `print` + `sys.exit(1)` paths), never a silent fallback. -/
theorem claim_C3 (c : Config)
    (h : c.preprocessing.type ∉ ["none", "linear", "cnn1d_s1"]
      ∨ c.backbone.type ∉ ["gru", "tcn", "mdtc"]) :
    init_model c = Except.error (InitError.unknownPrep c.preprocessing.type)
    ∨ init_model c = Except.error (InitError.unknownBackbone c.backbone.type) := by
  by_cases hp : c.preprocessing.type ∈ ["none", "linear", "cnn1d_s1"]
  · right
    have hb : c.backbone.type ∉ ["gru", "tcn", "mdtc"] := by tauto
    simp only [List.mem_cons, List.not_mem_nil, or_false, not_or] at hb
    obtain ⟨hb1, hb2, hb3⟩ := hb
    simp only [List.mem_cons, List.not_mem_nil, or_false] at hp
    rcases hp with hp | hp | hp <;>
      simp [init_model, hp, hb1, hb2, hb3, ok_bind, error_bind]
  · left
    simp only [List.mem_cons, List.not_mem_nil, or_false, not_or] at hp
    obtain ⟨hp1, hp2, hp3⟩ := hp
    simp [init_model, hp1, hp2, hp3, ok_bind, error_bind]

theorem claim_C3_witness :
    init_model badPrepConfig
        = Except.error (InitError.unknownPrep badPrepConfig.preprocessing.type)
    ∨ init_model badPrepConfig
        = Except.error (InitError.unknownBackbone badPrepConfig.backbone.type) :=
  claim_C3 badPrepConfig (Or.inl (by simp [badPrepConfig]))

/-- Claim C9: for an `mdtc` backbone, composition rebinds the hidden
dimension to `configs['backbone']['hidden_dim']`, hands the raw `input_dim`
to the backbone as its input size, and builds the classifier head on the
backbone's `hidden_dim`, so the top-level `hidden_dim` key no longer
determines the classifier input dimension. -/
theorem claim_C9 (c : Config) (ss ns ks hd : ℕ)
    (hp : c.preprocessing.type ∈ ["none", "linear", "cnn1d_s1"])
    (hb : c.backbone.type = "mdtc")
    (hss : c.backbone.stack_size = some ss)
    (hns : c.backbone.num_stack = some ns)
    (hks : c.backbone.kernel_size = some ks)
    (hhd : c.backbone.hidden_dim = some hd) :
    (init_model c).map KWSModelD.classifierIn = Except.ok hd
    ∧ (init_model c).map KWSModelD.classifierOut = Except.ok c.output_dim
    ∧ (init_model c).map KWSModelD.backbone
        = Except.ok (Backbone.mdtc ns ss c.input_dim hd ks true)
    ∧ (∀ x : ℕ, (init_model { c with hidden_dim := x }).map KWSModelD.classifierIn
        = Except.ok hd) := by
  simp only [List.mem_cons, List.not_mem_nil, or_false] at hp
  refine ⟨?_, ?_, ?_, fun x => ?_⟩ <;>
    rcases hp with hp | hp | hp <;>
      simp [init_model, hp, hb, hss, hns, hks, hhd, requiredKey, ok_bind,
        error_bind, map_ok, KWSModelD.classifierIn, KWSModelD.classifierOut]

theorem claim_C9_witness :
    (init_model mdtcConfig).map KWSModelD.classifierIn = Except.ok 32
    ∧ (init_model mdtcConfig).map KWSModelD.backbone
        = Except.ok (Backbone.mdtc 3 4 80 32 5 true) :=
  ⟨(claim_C9 mdtcConfig 4 3 5 32 (by simp [mdtcConfig]) rfl rfl rfl rfl rfl).1,
   (claim_C9 mdtcConfig 4 3 5 32 (by simp [mdtcConfig]) rfl rfl rfl rfl rfl).2.2.1⟩

/-- Claim C10: for a `tcn` backbone the dropout rate is read from the key
spelled `drouput` (default `0.1`); the correctly spelled `dropout` key is
never consulted, so a configuration supplying only `dropout` yields rate
`0.1`. -/
theorem claim_C10 (c : Config) (n : ℕ)
    (hp : c.preprocessing.type ∈ ["none", "linear", "cnn1d_s1"])
    (hb : c.backbone.type = "tcn")
    (hn : c.backbone.num_layers = some n) :
    (init_model c).map KWSModelD.backbone
      = Except.ok (Backbone.tcn n c.hidden_dim (c.backbone.kernel_size.getD 8)
          (c.backbone.drouput.getD (1 / 10)) (c.backbone.ds.getD false))
    ∧ (∀ d : Option ℚ,
        init_model { c with backbone := { c.backbone with dropout := d } }
          = init_model c)
    ∧ (c.backbone.drouput = none →
        (init_model c).map KWSModelD.backbone
          = Except.ok (Backbone.tcn n c.hidden_dim (c.backbone.kernel_size.getD 8)
              (1 / 10) (c.backbone.ds.getD false))) := by
  simp only [List.mem_cons, List.not_mem_nil, or_false] at hp
  refine ⟨?_, fun d => ?_, fun hdrou => ?_⟩
  · rcases hp with hp | hp | hp <;>
      simp [init_model, hp, hb, hn, requiredKey, ok_bind, error_bind, map_ok]
  · rcases hp with hp | hp | hp <;>
      simp [init_model, hp, hb, hn, requiredKey, ok_bind, error_bind]
  · rcases hp with hp | hp | hp <;>
      simp [init_model, hp, hb, hn, hdrou, requiredKey, ok_bind, error_bind,
        map_ok]

theorem claim_C10_witness :
    (init_model tcnConfig).map KWSModelD.backbone
      = Except.ok (Backbone.tcn 4 16 8 (1 / 10) false) :=
  (claim_C10 tcnConfig 4 (by simp [tcnConfig]) rfl rfl).2.2 rfl

/-! ## The claim about the forward pass -/

theorem sigmoid_nonneg (x : ℝ) : 0 ≤ sigmoid x := by
  unfold sigmoid
  have h := Real.exp_pos (-x)
  positivity

theorem sigmoid_le_one (x : ℝ) : sigmoid x ≤ 1 := by
  unfold sigmoid
  have h := Real.exp_pos (-x)
  rw [div_le_one (by linarith)]
  linarith

theorem sigmoid3_entry (y : Tensor3R) (i t k : ℕ) :
    entryR (sigmoid3 y) i t k = 0
    ∨ ∃ v, entryR (sigmoid3 y) i t k = sigmoid v := by
  unfold entryR sigmoid3
  rcases hy : y[i]? with _ | mat
  · left
    simp [List.getD_eq_getElem?_getD, List.getElem?_map, hy]
  · rcases hm : mat[t]? with _ | row
    · left
      simp [List.getD_eq_getElem?_getD, List.getElem?_map, hy, hm]
    · rcases hr : row[k]? with _ | v
      · left
        simp [List.getD_eq_getElem?_getD, List.getElem?_map, hy, hm, hr]
      · right
        exact ⟨v, by
          simp [List.getD_eq_getElem?_getD, List.getElem?_map, hy, hm, hr]⟩

/-- Claim C8: the composed forward pass applies its stages in strict
sequence — normalization when present, projection when present, then the
backbone, then the linear classifier followed by an element-wise sigmoid —
so every entry of the returned posterior tensor lies in `[0, 1]`. -/
theorem claim_C8 (m : KWSForward) (x : Tensor3R) (i t k : ℕ) :
    KWSModel_forward m x
      = sigmoid3 (classify m
          (m.backbone (applyStage m.preprocessing (applyStage m.global_cmvn x))).1)
    ∧ 0 ≤ entryR (KWSModel_forward m x) i t k
    ∧ entryR (KWSModel_forward m x) i t k ≤ 1 := by
  have hseq : KWSModel_forward m x
      = sigmoid3 (classify m
          (m.backbone (applyStage m.preprocessing (applyStage m.global_cmvn x))).1) := by
    unfold KWSModel_forward applyStage
    rfl
  refine ⟨hseq, ?_, ?_⟩
  · rw [hseq]
    rcases sigmoid3_entry
      (classify m
        (m.backbone (applyStage m.preprocessing (applyStage m.global_cmvn x))).1)
      i t k with h | ⟨v, h⟩
    · rw [h]
    · rw [h]
      exact sigmoid_nonneg v
  · rw [hseq]
    rcases sigmoid3_entry
      (classify m
        (m.backbone (applyStage m.preprocessing (applyStage m.global_cmvn x))).1)
      i t k with h | ⟨v, h⟩
    · rw [h]
      exact zero_le_one
    · rw [h]
      exact sigmoid_le_one v

/-! ## Success of the checked evaluator on well-formed inputs -/

theorem bind_ok2 {ε α β : Type} (x : Except ε α) (f : α → Except ε β)
    (hx : ∃ a, x = Except.ok a)
    (hf : ∀ a, x = Except.ok a → ∃ b, f a = Except.ok b) :
    ∃ b, (x >>= f) = Except.ok b := by
  obtain ⟨a, ha⟩ := hx
  obtain ⟨b, hb⟩ := hf a ha
  exact ⟨b, by rw [ha, ok_bind, hb]⟩

theorem getE_eq_getD {α : Type} (l : List α) (i : ℕ) (d : α) (h : i < l.length) :
    getE l i = Except.ok (l.getD i d) := by
  unfold getE
  rw [List.getD_eq_getElem?_getD, List.getElem?_eq_getElem h]
  rfl

theorem getD_mem {α : Type} (l : List α) (i : ℕ) (d : α) (h : i < l.length) :
    l.getD i d ∈ l := by
  rw [List.getD_eq_getElem?_getD, List.getElem?_eq_getElem h]
  exact List.getElem_mem h

theorem mapME_ok {α β : Type} (f : α → Except EvalError β) (l : List α)
    (h : ∀ a ∈ l, ∃ b, f a = Except.ok b) :
    ∃ bs, mapME f l = Except.ok bs ∧ bs.length = l.length
      ∧ ∀ b ∈ bs, ∃ a ∈ l, f a = Except.ok b := by
  induction l with
  | nil => exact ⟨[], rfl, rfl, by simp⟩
  | cons a l ih =>
    obtain ⟨b, hb⟩ := h a (List.mem_cons_self a l)
    obtain ⟨bs, hbs, hlen, hmem⟩ := ih (fun x hx => h x (List.mem_cons_of_mem a hx))
    refine ⟨b :: bs, ?_, by simp [hlen], ?_⟩
    · show (f a >>= fun b => mapME f l >>= fun bs => Except.ok (b :: bs))
        = Except.ok (b :: bs)
      rw [hb, ok_bind, hbs, ok_bind]
    · intro b2 hb2
      rcases List.mem_cons.mp hb2 with h1 | h1
      · exact ⟨a, List.mem_cons_self a l, h1 ▸ hb⟩
      · obtain ⟨x, hx, hfx⟩ := hmem b2 h1
        exact ⟨x, List.mem_cons_of_mem a hx, hfx⟩

theorem foldlME_ok {α β : Type} (g : β → α → Except EvalError β) (l : List α)
    (h : ∀ a ∈ l, ∀ b, ∃ c, g b a = Except.ok c) :
    ∀ b0, ∃ c, foldlME g b0 l = Except.ok c := by
  induction l with
  | nil => exact fun b0 => ⟨b0, rfl⟩
  | cons a l ih =>
    intro b0
    obtain ⟨c, hc⟩ := h a (List.mem_cons_self a l) b0
    obtain ⟨c2, hc2⟩ := ih (fun x hx b => h x (List.mem_cons_of_mem a hx) b) c
    refine ⟨c2, ?_⟩
    show (g b0 a >>= fun b2 => foldlME g b2 l) = Except.ok c2
    rw [hc, ok_bind, hc2]

theorem maskedFillE_ok (xs : List ℚ) (m : List Bool) (v : ℚ)
    (h : m.length = xs.length) :
    ∃ ys, maskedFillE xs m v = Except.ok ys ∧ ys.length = xs.length := by
  refine ⟨(xs.zip m).map (fun p => if p.2 then v else p.1), ?_, ?_⟩
  · rw [maskedFillE, if_pos h]
  · simp [h]

theorem setTrueBefore_length (m : List Bool) (md : ℕ) :
    (setTrueBefore m md).length = m.length := by
  simp [setTrueBefore]

theorem maxE_ok (l : List ℚ) (h : l ≠ []) : ∃ v, maxE l = Except.ok v := by
  cases l with
  | nil => exact absurd rfl h
  | cons x xs => exact ⟨xs.foldl max x, rfl⟩

theorem minE_ok (l : List ℚ) (h : l ≠ []) : ∃ v, minE l = Except.ok v := by
  cases l with
  | nil => exact absurd rfl h
  | cons x xs => exact ⟨xs.foldl min x, rfl⟩

theorem maxIdxE_ok (l : List ℚ) (h : l ≠ []) : ∃ v, maxIdxE l = Except.ok v := by
  cases l with
  | nil => exact absurd rfl h
  | cons x xs => exact ⟨_, rfl⟩

theorem fill2E_ok (mat : List (List ℚ)) (mrow : List Bool)
    (h : mrow.length = mat.length) :
    ∃ out, fill2E mat mrow = Except.ok out ∧ out.length = mat.length
      ∧ ∀ row ∈ out, ∃ row0 ∈ mat, row.length = row0.length := by
  refine ⟨(mat.zip mrow).map
    (fun p => if p.2 then p.1.map (fun _ => (0 : ℚ)) else p.1), ?_, ?_, ?_⟩
  · rw [fill2E, if_pos h]
  · simp [h]
  · intro row hr
    obtain ⟨p, hp, hEq⟩ := List.mem_map.mp hr
    refine ⟨p.1, (List.of_mem_zip hp).1, ?_⟩
    rw [← hEq]
    by_cases hb : p.2 <;> simp [hb]

theorem foldl_zipWith_max_length (rs : List (List ℚ)) (acc : List ℚ) (n : ℕ)
    (hacc : acc.length = n) (hrs : ∀ r ∈ rs, r.length = n) :
    (rs.foldl (fun a r => a.zipWith max r) acc).length = n := by
  induction rs generalizing acc with
  | nil => exact hacc
  | cons r rs ih =>
    apply ih
    · simp [hacc, hrs r (List.mem_cons_self r rs)]
    · exact fun x hx => hrs x (List.mem_cons_of_mem r hx)

theorem maxOverTimeE_ok (mat : List (List ℚ)) (n : ℕ) (hne : mat ≠ [])
    (hrows : ∀ r ∈ mat, r.length = n) :
    ∃ out, maxOverTimeE mat = Except.ok out ∧ out.length = n := by
  cases mat with
  | nil => exact absurd rfl hne
  | cons r rs =>
    exact ⟨_, rfl, foldl_zipWith_max_length rs r n
      (hrows r (List.mem_cons_self r rs))
      (fun x hx => hrows x (List.mem_cons_of_mem r hx))⟩

theorem lossTermE_ok (nlog : ℚ → ℚ) (logits : List (List (List ℚ)))
    (mask : List (List Bool)) (target : List ℤ) (md i j : ℕ)
    (hit : i < target.length) (hil : i < logits.length) (him : i < mask.length)
    (hrow : ∀ row ∈ logits.getD i [], j < row.length)
    (hmask : (mask.getD i []).length = (logits.getD i []).length)
    (hT : 0 < (logits.getD i []).length) :
    ∃ v, lossTermE nlog logits mask target md i j = Except.ok v := by
  have hti := getE_eq_getD target i 0 hit
  have hmat := getE_eq_getD logits i [] hil
  have hmi := getE_eq_getD mask i [] him
  obtain ⟨col, hcol, hcollen, _⟩ :=
    mapME_ok (fun row => getE row j) (logits.getD i [])
      (fun row hr => ⟨row.getD j 0, getE_eq_getD row j 0 (hrow row hr)⟩)
  unfold lossTermE
  simp only [hti, ok_bind]
  by_cases hc : target.getD i 0 = (j : ℤ)
  · rw [if_pos hc]
    simp only [hmat, ok_bind, columnE, hcol, hmi]
    obtain ⟨filled, hfill, hfilllen⟩ :=
      maskedFillE_ok col (setTrueBefore (mask.getD i []) md) 0
        (by rw [setTrueBefore_length, hmask, hcollen])
    simp only [hfill, ok_bind]
    obtain ⟨mp, hmp⟩ := maxE_ok (filled.map (fun x => clampQ x epsQ 1))
      (by
        have : 0 < filled.length := by
          rw [hfilllen, hcollen]
          exact hT
        simp only [← List.length_pos]
        simpa using this)
    simp only [hmp, ok_bind]
    exact ⟨nlog mp, rfl⟩
  · rw [if_neg hc]
    simp only [hmat, ok_bind, columnE, hcol, hmi]
    obtain ⟨filled, hfill, hfilllen⟩ :=
      maskedFillE_ok (col.map (fun x => 1 - x)) (mask.getD i []) 1
        (by rw [hmask, List.length_map, hcollen])
    simp only [hfill, ok_bind]
    obtain ⟨mp, hmp⟩ := minE_ok (filled.map (fun x => clampQ x epsQ 1))
      (by
        have : 0 < filled.length := by
          rw [hfilllen, List.length_map, hcollen]
          exact hT
        simp only [← List.length_pos]
        simpa using this)
    simp only [hmp, ok_bind]
    exact ⟨nlog mp, rfl⟩

theorem padding_maskE_eq (lengths : List ℕ) (h : lengths ≠ []) :
    padding_maskE lengths = Except.ok (lengths.map (fun len =>
      (List.range (lengths.foldr Nat.max 0)).map (fun t => decide (len ≤ t)))) := by
  cases lengths with
  | nil => exact absurd rfl h
  | cons a l => rfl

theorem max_polling_lossE_ok_of_WFShapes (nlog : ℚ → ℚ)
    (logits : List (List (List ℚ))) (target : List ℤ) (lengths : List ℕ)
    (md : ℕ) (h : WFShapes logits target lengths) :
    ∃ p, max_polling_lossE nlog logits target lengths md = Except.ok p := by
  obtain ⟨hB, hD, htl, hll, hrect, hlen, hmaxT⟩ := h
  have hlnil : lengths ≠ [] := by
    intro h0
    rw [h0] at hll
    simp at hll
    omega
  have hmaskE := padding_maskE_eq lengths hlnil
  have hTpos : 0 < (logits.headD []).length := by
    obtain ⟨len, hmem⟩ := List.exists_mem_of_ne_nil lengths hlnil
    have := hlen len hmem
    omega
  unfold max_polling_lossE
  refine bind_ok2 _ _ ⟨_, hmaskE⟩ ?_
  intro mask hmask0
  have hmaskVal : mask = lengths.map (fun len =>
      (List.range (lengths.foldr Nat.max 0)).map (fun t => decide (len ≤ t))) := by
    rw [hmaskE] at hmask0
    exact (Except.ok.inj hmask0).symm
  have hmlen2 : mask.length = logits.length := by
    rw [hmaskVal, List.length_map, hll]
  have hmrow2 : ∀ row ∈ mask, row.length = (logits.headD []).length := by
    rw [hmaskVal]
    intro row hr
    obtain ⟨len, _, hEq⟩ := List.mem_map.mp hr
    rw [← hEq, List.length_map, List.length_range, hmaxT]
  dsimp only
  refine bind_ok2 _ _ ?_ ?_
  · refine foldlME_ok _ _ (fun i hi acc => ?_) 0
    refine foldlME_ok _ _ (fun j hj a => ?_) acc
    have hi2 : i < logits.length := List.mem_range.mp hi
    have hj2 : j < ((logits.headD []).headD []).length := List.mem_range.mp hj
    have hmatmem : logits.getD i [] ∈ logits := getD_mem logits i [] hi2
    obtain ⟨v, hv⟩ := lossTermE_ok nlog logits mask target md i j
      (by rw [htl]; exact hi2)
      hi2 (by rw [hmlen2]; exact hi2)
      (fun row hr => by rw [(hrect _ hmatmem).2 row hr]; exact hj2)
      (by rw [hmrow2 _ (getD_mem mask i [] (by rw [hmlen2]; exact hi2)),
        (hrect _ hmatmem).1])
      (by rw [(hrect _ hmatmem).1]; exact hTpos)
    exact ⟨a + v, by rw [hv, ok_bind]⟩
  intro lsum hlsum
  dsimp only
  rw [if_neg (by omega)]
  have hfill3 : ∃ filled, maskedFill3E logits mask = Except.ok filled
      ∧ filled.length = logits.length
      ∧ ∀ mat2 ∈ filled, mat2.length = (logits.headD []).length
          ∧ ∀ row ∈ mat2, row.length = ((logits.headD []).headD []).length := by
    rw [maskedFill3E, if_pos hmlen2]
    obtain ⟨filled, hok, hlen2, hmem2⟩ :=
      mapME_ok (fun p => fill2E p.1 p.2) (logits.zip mask)
        (fun p hp => by
          obtain ⟨out, ho, _, _⟩ := fill2E_ok p.1 p.2
            (by rw [hmrow2 p.2 (List.of_mem_zip hp).2,
              (hrect p.1 (List.of_mem_zip hp).1).1])
          exact ⟨out, ho⟩)
    refine ⟨filled, hok, ?_, ?_⟩
    · rw [hlen2, List.length_zip, hmlen2, Nat.min_self]
    · intro mat2 hmat2
      obtain ⟨p, hp, hfp⟩ := hmem2 mat2 hmat2
      have h1 := (List.of_mem_zip hp).1
      have h2 := (List.of_mem_zip hp).2
      obtain ⟨out, ho, holen, horows⟩ := fill2E_ok p.1 p.2
        (by rw [hmrow2 p.2 h2, (hrect p.1 h1).1])
      rw [ho] at hfp
      have hout : out = mat2 := Except.ok.inj hfp
      subst hout
      refine ⟨by rw [holen, (hrect p.1 h1).1], ?_⟩
      intro row hrow2
      obtain ⟨row0, hrow0, hEq⟩ := horows row hrow2
      rw [hEq]
      exact (hrect p.1 h1).2 row0 hrow0
  obtain ⟨filled, hfok, hflen, hfshape⟩ := hfill3
  refine bind_ok2 _ _ ⟨filled, hfok⟩ ?_
  intro filled2 hf2
  rw [hfok] at hf2
  obtain rfl := Except.ok.inj hf2
  obtain ⟨maxl, hmok, hmlen3, hmmem3⟩ :=
    mapME_ok maxOverTimeE filled
      (fun mat2 hm2 => by
        obtain ⟨out, ho, _⟩ := maxOverTimeE_ok mat2
          ((logits.headD []).headD []).length
          (by
            have := (hfshape mat2 hm2).1
            intro hnil
            rw [hnil] at this
            simp only [List.length_nil] at this
            omega)
          (hfshape mat2 hm2).2
        exact ⟨out, ho⟩)
  have hmrows : ∀ row ∈ maxl, row.length = ((logits.headD []).headD []).length := by
    intro row hr
    obtain ⟨mat2, hm2, hfp⟩ := hmmem3 row hr
    obtain ⟨out, ho, holen⟩ := maxOverTimeE_ok mat2
      ((logits.headD []).headD []).length
      (by
        have := (hfshape mat2 hm2).1
        intro hnil
        rw [hnil] at this
        simp only [List.length_nil] at this
        omega)
      (hfshape mat2 hm2).2
    rw [ho] at hfp
    have hout : out = row := Except.ok.inj hfp
    rw [← hout]
    exact holen
  refine bind_ok2 _ _ ⟨maxl, hmok⟩ ?_
  intro maxl2 hm2
  rw [hmok] at hm2
  obtain rfl := Except.ok.inj hm2
  refine bind_ok2 _ _ ?_ ?_
  · refine foldlME_ok _ _ (fun i hi acc => ?_) 0
    have hi2 : i < logits.length := List.mem_range.mp hi
    have hil3 : i < maxl.length := by
      rw [hmlen3, hflen]
      exact hi2
    have hrowE := getE_eq_getD maxl i [] hil3
    simp only [hrowE, ok_bind]
    obtain ⟨mi, hmi⟩ := maxIdxE_ok (maxl.getD i [])
      (by
        have := hmrows _ (getD_mem maxl i [] hil3)
        intro hnil
        rw [hnil] at this
        simp only [List.length_nil] at this
        omega)
    simp only [hmi, ok_bind, getE_eq_getD target i 0 (by rw [htl]; exact hi2)]
    exact ⟨_, rfl⟩
  intro ncorrect hnc
  exact ⟨_, rfl⟩

/-! ## The claims about the evaluator's run-time behavior -/

/-- Claim C5: when `min_duration` reaches or exceeds a positive utterance's
true length, every frame of the target keyword column is excluded (as
padding or by the onset-delay exclusion); evaluation does not raise, the max
over the empty effective set is the clamp floor, and the `(i, j)`
contribution is the fixed fallback `-log(1e-8)`. -/
theorem claim_C5 (nlog : ℚ → ℚ) (logits : List (List (List ℚ)))
    (target : List ℤ) (lengths : List ℕ) (md i j : ℕ)
    (hWF : WFShapes logits target lengths)
    (htgt : tgtFn target i = (j : ℤ))
    (hmd : lenFn lengths i ≤ md) :
    (∃ p, max_polling_lossE nlog logits target lengths md = Except.ok p)
    ∧ pairLoss nlog (idx3 logits) (tgtFn target) (lenFn lengths) md
        ((logits.headD []).length) i j = nlog epsQ := by
  refine ⟨max_polling_lossE_ok_of_WFShapes nlog logits target lengths md hWF, ?_⟩
  have hTpos : 0 < (logits.headD []).length := by
    obtain ⟨hB, hD, htl, hll, hrect, hlen, hmaxT⟩ := hWF
    have hlnil : lengths ≠ [] := by
      intro h0
      rw [h0] at hll
      simp at hll
      omega
    obtain ⟨len, hmem⟩ := List.exists_mem_of_ne_nil lengths hlnil
    have := hlen len hmem
    omega
  rw [pairLoss, if_pos htgt,
    posPool_all_excluded (idx3 logits) (lenFn lengths) md
      ((logits.headD []).length) i j hTpos hmd]

theorem claim_C5_witness :
    pairLoss negQ (idx3 [[[1 / 2]]]) (tgtFn [0]) (lenFn [1]) 1 1 0 0
      = negQ epsQ :=
  (claim_C5 negQ [[[1 / 2]]] [0] [1] 1 0 0 (by decide) (by decide) (by decide)).2

/-- Counterexample to claim C6: a batch of one utterance with a target vector
of length two — mutually inconsistent batch dimensions — evaluates without
raising any error and returns a complete `(loss, accuracy)` pair, because
`target[i]` is only ever read for `i` below the posterior batch size. -/
theorem claim_C6_counterexample :
    max_polling_lossE negQ [[[1 / 2]]] [0, 0] [1] 0
      = Except.ok (-(1 / 2), 0) := by
  simp [max_polling_lossE, padding_maskE, lossTermE, columnE, mapME, foldlME,
    getE, maskedFillE, setTrueBefore, maskedFill3E, fill2E, maxOverTimeE,
    maxIdxE, maxE, minE, clampQ, epsQ, negQ, ok_bind, error_bind,
    List.range_succ, List.range_zero]
  norm_num

/-- Claim C6 (amended): for well-formed inputs the evaluator raises no
exception and returns a complete `(loss, accuracy)` pair; run-time errors
only arise from the individual tensor operations, so mutually inconsistent
shapes are not reliably rejected (an over-long target vector is silently
accepted). -/
theorem claim_C6_amended (nlog : ℚ → ℚ) (logits : List (List (List ℚ)))
    (target : List ℤ) (lengths : List ℕ) (md : ℕ)
    (hWF : WFShapes logits target lengths) :
    ∃ p, max_polling_lossE nlog logits target lengths md = Except.ok p :=
  max_polling_lossE_ok_of_WFShapes nlog logits target lengths md hWF

theorem claim_C6_witness :
    isOkE (max_polling_lossE negQ [[[1 / 2]]] [0] [1] 0) = true := by
  obtain ⟨p, hp⟩ := claim_C6_amended negQ [[[1 / 2]]] [0] [1] 0 (by decide)
  rw [hp]
  rfl

end WenetKWS
